import Mathlib

/-!
# Verification of the moosey-cms specification against its source

Shallow embedding of `src/moosey_cms` (cache.py, helpers.py, models.py,
main.py) and proofs settling the frozen claims about it.

External capabilities that the source merely calls (the operating system's
path resolution, the `inflection.singularize`, `slugify` and markdown
libraries, jinja's template evaluation, pydantic's HTTP-URL validation) are
taken as parameters of the embedded functions; everything the repository
itself computes is translated directly from the Python source.
-/

namespace MooseyCMS

/-! ## Helpers mirroring Python string primitives

Lean's built-in `String.splitOn`, `String.replace` and `String.startsWith`
do not reduce inside the kernel, so the Python string operations used by the
source are re-implemented structurally over character lists. -/

/-- Python `str.strip(c)`: drop the character `c` from both ends. -/
def pyStrip (s : String) (c : Char) : String :=
  ⟨((s.toList.dropWhile (· = c)).reverse.dropWhile (· = c)).reverse⟩

/-- Python `str.split(sep)` for a one-character separator: splitting `""`
gives `[""]`, and adjacent separators produce empty fields. -/
def listSplit (c : Char) : List Char → List (List Char)
  | [] => [[]]
  | x :: xs =>
      let r := listSplit c xs
      if x = c then [] :: r
      else
        match r with
        | [] => [[x]]
        | g :: gs => (x :: g) :: gs

def pySplitChar (s : String) (c : Char) : List String :=
  (listSplit c s.toList).map (fun cs => ⟨cs⟩)

/-- Python `str.replace(pat, rep)` on character lists: replace every
non-overlapping occurrence, scanning left to right.  The `fuel` argument is
initialised with the length of the subject and only bounds the recursion;
each step consumes at least one subject character, so the fuel never runs
out. -/
def pyReplaceAux (pat rep : List Char) : Nat → List Char → List Char
  | _, [] => []
  | 0, cs => cs
  | fuel + 1, c :: cs =>
      if pat.isPrefixOf (c :: cs) ∧ pat ≠ [] then
        rep ++ pyReplaceAux pat rep fuel (List.drop (pat.length - 1) cs)
      else c :: pyReplaceAux pat rep fuel cs

def pyReplace (s pat rep : String) : String :=
  ⟨pyReplaceAux pat.toList rep.toList s.toList.length s.toList⟩

/-- Python `str.startswith(pre)`. -/
def pyStartsWith (s pre : String) : Bool := pre.toList.isPrefixOf s.toList

/-- Python `str.endswith(suf)`. -/
def pyEndsWith (s suf : String) : Bool :=
  suf.toList.reverse.isPrefixOf s.toList.reverse

/-- First-match association-list lookup, modelling `key in cache` together
with `cache[key]` on a Python `dict`. -/
def assocFind {α β : Type} [DecidableEq α] : List (α × β) → α → Option β
  | [], _ => none
  | (k, v) :: rest, key => if k = key then some v else assocFind rest key

/-- Python `"/".join(parts)`. -/
def joinSlash (parts : List String) : String := String.intercalate "/" parts

/-- The comprehension `[p for p in path_str.strip("/").split("/") if p]`
from `find_best_template` (helpers.py line 92). -/
def pathParts (path_str : String) : List String :=
  (pySplitChar (pyStrip path_str '/') '/').filter (fun p => p ≠ "")

/-- Python `str.title()` (ASCII model): a letter is uppercased when the
previous character is not a letter, and lowercased otherwise. -/
def pyTitleAux : Bool → List Char → List Char
  | _, [] => []
  | prevAlpha, c :: cs =>
      (if c.isAlpha then (if prevAlpha then c.toLower else c.toUpper) else c)
        :: pyTitleAux c.isAlpha cs

def pyTitle (s : String) : String := ⟨pyTitleAux false s.toList⟩

/-- Python `pathlib.PurePath.stem`: the final component without its last
suffix; the suffix is `name[i:]` for the last dot index `i` with
`0 < i < len(name) - 1`. -/
def pyStem (name : String) : String :=
  let cs := name.toList
  match ((List.range cs.length).filter (fun j => cs.get? j = some '.')).getLast? with
  | some j => if 0 < j ∧ j < cs.length - 1 then ⟨cs.take j⟩ else name
  | none => name

/-! ## Python values (cache.py)

`make_hashable` and the cache wrapper manipulate arbitrary Python values.
We model the value universe the repository feeds through the cache: scalars,
datetimes, the `cachetools.keys` keyword-marker sentinel, and the four
container kinds the normalizer distinguishes.  Dictionary keys are strings
(every dictionary the repository caches on is string-keyed; Python's
`sorted` would raise on incomparable keys). -/

inductive PyVal : Type where
  | int (n : Int)
  | str (s : String)
  | datetime (t : Int)
  | kwdMark
  | list (xs : List PyVal)
  | set (xs : List PyVal)
  | tuple (xs : List PyVal)
  | dict (kvs : List (String × PyVal))

mutual
/-- Boolean equality on `PyVal` (the derive handler does not support this
nested inductive, so the instance is built by hand). -/
def pyBeq : PyVal → PyVal → Bool
  | .int a, .int b => a == b
  | .str a, .str b => a == b
  | .datetime a, .datetime b => a == b
  | .kwdMark, .kwdMark => true
  | .list xs, .list ys => pyBeqL xs ys
  | .set xs, .set ys => pyBeqL xs ys
  | .tuple xs, .tuple ys => pyBeqL xs ys
  | .dict xs, .dict ys => pyBeqP xs ys
  | _, _ => false
def pyBeqL : List PyVal → List PyVal → Bool
  | [], [] => true
  | x :: xs, y :: ys => pyBeq x y && pyBeqL xs ys
  | _, _ => false
def pyBeqP : List (String × PyVal) → List (String × PyVal) → Bool
  | [], [] => true
  | (k, v) :: xs, (k', v') :: ys => k == k' && pyBeq v v' && pyBeqP xs ys
  | _, _ => false
end

mutual
/-- Reflexivity of `pyBeq`, needed to decide equality of `PyVal`. -/
def pyBeq_refl : ∀ a, pyBeq a a = true
  | .int _ => by simp [pyBeq]
  | .str _ => by simp [pyBeq]
  | .datetime _ => by simp [pyBeq]
  | .kwdMark => rfl
  | .list xs => pyBeqL_refl xs
  | .set xs => pyBeqL_refl xs
  | .tuple xs => pyBeqL_refl xs
  | .dict kvs => pyBeqP_refl kvs
def pyBeqL_refl : ∀ xs, pyBeqL xs xs = true
  | [] => rfl
  | x :: xs => by simp [pyBeqL, pyBeq_refl x, pyBeqL_refl xs]
def pyBeqP_refl : ∀ xs, pyBeqP xs xs = true
  | [] => rfl
  | (k, v) :: xs => by simp [pyBeqP, pyBeq_refl v, pyBeqP_refl xs]
end

mutual
/-- Soundness of `pyBeq`, needed to decide equality of `PyVal`. -/
def pyBeq_sound : ∀ a b, pyBeq a b = true → a = b
  | .int _, b => by cases b <;> simp [pyBeq]
  | .str _, b => by cases b <;> simp [pyBeq]
  | .datetime _, b => by cases b <;> simp [pyBeq]
  | .kwdMark, b => by cases b <;> simp [pyBeq]
  | .list xs, b => by
      cases b <;> simp [pyBeq] <;> exact fun h => pyBeqL_sound xs _ h
  | .set xs, b => by
      cases b <;> simp [pyBeq] <;> exact fun h => pyBeqL_sound xs _ h
  | .tuple xs, b => by
      cases b <;> simp [pyBeq] <;> exact fun h => pyBeqL_sound xs _ h
  | .dict kvs, b => by
      cases b <;> simp [pyBeq] <;> exact fun h => pyBeqP_sound kvs _ h
def pyBeqL_sound : ∀ xs ys, pyBeqL xs ys = true → xs = ys
  | [], [] => by simp
  | [], _ :: _ => by simp [pyBeqL]
  | _ :: _, [] => by simp [pyBeqL]
  | x :: xs, y :: ys => by
      simp only [pyBeqL, Bool.and_eq_true, List.cons.injEq]
      exact fun h => ⟨pyBeq_sound x y h.1, pyBeqL_sound xs ys h.2⟩
def pyBeqP_sound : ∀ xs ys, pyBeqP xs ys = true → xs = ys
  | [], [] => by simp
  | [], _ :: _ => by simp [pyBeqP]
  | _ :: _, [] => by simp [pyBeqP]
  | (k, v) :: xs, (k', v') :: ys => by
      simp only [pyBeqP, Bool.and_eq_true, List.cons.injEq, Prod.mk.injEq]
      exact fun h => ⟨⟨eq_of_beq h.1.1, pyBeq_sound v v' h.1.2⟩, pyBeqP_sound xs ys h.2⟩
end

instance : DecidableEq PyVal := fun a b =>
  if h : pyBeq a b = true then .isTrue (pyBeq_sound a b h)
  else .isFalse (fun he => by subst he; exact h (pyBeq_refl a))

/-- Key order used by Python's `sorted` on `(k, v)` pairs: first components
are compared first.  The dictionaries being sorted have pairwise-distinct
keys, so the comparison never reaches the second components; accordingly the
sort relation consults only the key. -/
def keyLe {β : Type} (p q : String × β) : Prop := p.1.toList ≤ q.1.toList

instance {β : Type} : DecidableRel (@keyLe β) :=
  fun p q => inferInstanceAs (Decidable (p.1.toList ≤ q.1.toList))

instance {β : Type} : IsTotal (String × β) keyLe :=
  ⟨fun p q => le_total p.1.toList q.1.toList⟩

instance {β : Type} : IsTrans (String × β) keyLe := ⟨fun _ _ _ h h' => le_trans h h'⟩

/-- The corresponding strict key order (used only in proofs). -/
def keyLt {β : Type} (p q : String × β) : Prop := p.1.toList < q.1.toList

instance {β : Type} : IsAntisymm (String × β) keyLt :=
  ⟨fun _ _ h h' => absurd h' (not_lt.mpr (le_of_lt h))⟩

/-- Python `sorted` on an association list of `(key, value)` pairs. -/
def sortPairs {β : Type} (kvs : List (String × β)) : List (String × β) :=
  kvs.insertionSort keyLe

mutual
/-- The normalizer `make_hashable` (cache.py lines 24–33): dictionaries
become sorted tuples of `(key, normalized value)` pairs, lists and sets
become tuples of normalized elements, and everything else — tuples
included — is returned unchanged. -/
def make_hashable : PyVal → PyVal
  | .dict kvs =>
      .tuple ((sortPairs (mhPairs kvs)).map (fun kv => .tuple [.str kv.1, kv.2]))
  | .list xs => .tuple (mhList xs)
  | .set xs => .tuple (mhList xs)
  | v => v
def mhList : List PyVal → List PyVal
  | [] => []
  | x :: xs => make_hashable x :: mhList xs
def mhPairs : List (String × PyVal) → List (String × PyVal)
  | [] => []
  | (k, v) :: kvs => (k, make_hashable v) :: mhPairs kvs
end

mutual
/-- Python hashability: scalars and the sentinel hash, `dict`, `list` and
`set` raise `TypeError: unhashable type`, and a tuple hashes exactly when
all of its elements do. -/
def pyHashable : PyVal → Bool
  | .dict _ => false
  | .list _ => false
  | .set _ => false
  | .tuple xs => pyHashableL xs
  | _ => true
def pyHashableL : List PyVal → Bool
  | [] => true
  | x :: xs => pyHashable x && pyHashableL xs
end

/-! ## The memoization wrapper (cache.py lines 35–64) -/

/-- The process-wide `cache` dictionary, as an association list from keys to
stored results.  The 30-day time-to-live and the 1000-entry capacity of the
backing `TTLCache` are not modelled: no claim observes expiry or eviction of
this cache. -/
structure CacheState : Type where
  entries : List (PyVal × PyVal)
deriving DecidableEq

/-- Full cache clear, `clear_cache` (cache.py lines 13–14): `cache.clear()`
drops every entry. -/
def clear_cache (_ : CacheState) : CacheState := ⟨[]⟩

/-- Key builder `cachetools.keys.hashkey(*args, **kwargs)`: the positional arguments,
followed — when keyword arguments are present — by a sentinel marker and the
keyword items flattened in sorted key order. -/
def hashkey (args : List PyVal) (kwargs : List (String × PyVal)) : PyVal :=
  .tuple (args ++
    (if kwargs.isEmpty then []
     else .kwdMark :: (sortPairs kwargs).flatMap (fun kv => [.str kv.1, kv.2])))

/-- Key construction in the wrapper (cache.py lines 42–46): arguments are
normalized with `make_hashable`, then fed to `hashkey`. -/
def cacheKey (args : List PyVal) (kwargs : List (String × PyVal)) : PyVal :=
  hashkey (args.map make_hashable) (kwargs.map (fun kv => (kv.1, make_hashable kv.2)))

/-- One call through the `cache_fn` wrapper (cache.py lines 38–60).

Result: `none` when hashing the constructed key raises `TypeError`
(`key in cache` hashes the key), otherwise `some (result, new state, b)`
where `b` records whether the wrapped function was invoked.  On a miss the
wrapped function receives the *original* arguments, not the normalized
ones. -/
def callCached (f : List PyVal → List (String × PyVal) → PyVal)
    (args : List PyVal) (kwargs : List (String × PyVal)) (st : CacheState) :
    Option (PyVal × CacheState × Bool) :=
  let key := cacheKey args kwargs
  if pyHashable key then
    match assocFind st.entries key with
    | some v => some (v, st, false)
    | none =>
        let result := f args kwargs
        some (result, ⟨(key, result) :: st.entries⟩, true)
  else none

/-- Concrete arguments used to witness the behaviour of the wrapper: the
mapping `{"a": 1, "b": 2}` written with its keys in the two possible
orders, the cache key both orders normalize to, and a sample wrapped
function. -/
abbrev c2dictAB : List (String × PyVal) := [("a", .int 1), ("b", .int 2)]

abbrev c2dictBA : List (String × PyVal) := [("b", .int 2), ("a", .int 1)]

abbrev c2key : PyVal :=
  .tuple [.tuple [.tuple [.str "a", .int 1], .tuple [.str "b", .int 2]]]

abbrev c2fn : List PyVal → List (String × PyVal) → PyVal := fun args _ => .tuple args

/-- Structural equality of Python values in the sense exercised by the
specification: a value is structurally equal to itself, and two
dictionaries carrying the same `(key, value)` entries in a different order
are structurally equal. -/
inductive StructEq : PyVal → PyVal → Prop where
  | refl (v : PyVal) : StructEq v v
  | dict_perm {kvs₁ kvs₂ : List (String × PyVal)} (hperm : kvs₁.Perm kvs₂)
      (hnd : (kvs₁.map Prod.fst).Nodup) : StructEq (.dict kvs₁) (.dict kvs₂)

/-! ## The debounce cache (cache.py lines 17–21)

`clear_cache_on_file_change` is `clear_cache` memoized by a
`TTLCache(maxsize=100, ttl=5)` keyed on `(file_path, event_type)`.  A cached
entry expires once the current time reaches its insertion time plus 5; on a
miss the underlying clear runs and the entry is (re)inserted with a fresh
expiry.  Time is modelled by integers; the 100-entry capacity is not
modelled (the claims stay far below it).  The returned flag records whether
the underlying cache clear executed. -/

structure DebounceState : Type where
  entries : List ((String × String) × Int)
deriving DecidableEq

def debounceInit : DebounceState := ⟨[]⟩

def clear_cache_on_file_change (st : DebounceState) (now : Int)
    (file_path event_type : String) : DebounceState × Bool :=
  let key := (file_path, event_type)
  match assocFind st.entries key with
  | some expires =>
      if now < expires then (st, false)
      else (⟨(key, now + 5) :: st.entries.filter (fun e => e.1 ≠ key)⟩, true)
  | none => (⟨(key, now + 5) :: st.entries⟩, true)

/-- Deliver a sequence of `(time, path, event_type)` notifications and count
how many underlying cache clears execute. -/
def runDebounce (st : DebounceState) : List (Int × String × String) → DebounceState × Nat
  | [] => (st, 0)
  | (t, p, ev) :: rest =>
      let step := clear_cache_on_file_change st t p ev
      let tail := runDebounce step.1 rest
      (tail.1, (if step.2 then 1 else 0) + tail.2)

/-! ## The secure path resolver (helpers.py lines 50–81)

`Path.resolve()` and `Path.is_relative_to` are operating-system services;
they enter the embedding as an abstract filesystem model.  `resolve`
returning `none` models the `OSError` raised on an illegal path. -/

structure FsModel : Type where
  resolve : String → Option String
  is_relative_to : String → String → Bool

/-- Path join `relative_to_path / clean_path` for a relative `clean_path`. -/
def joinUnder (root rel : String) : String :=
  if rel = "" then root else root ++ "/" ++ rel

def get_secure_target (fs : FsModel) (user_path : String)
    (relative_to_path : String) : Except String String :=
  if '\x00' ∈ user_path.toList then
    .error "Security Alert: Null byte detected in path."
  else
    let clean_path := pyStrip user_path '/'
    let naive_path := joinUnder relative_to_path clean_path
    match fs.resolve naive_path with
    | none => .error "Invalid characters in path."
    | some resolved_path =>
        if fs.is_relative_to resolved_path relative_to_path then .ok resolved_path
        else .error ("Path Traversal Attempt: " ++ user_path)

/-! ## Template resolution (helpers.py lines 84–143)

`template_exists` asks jinja for the template and reports whether it was
found; it is modelled by membership in the list of available template names.
`inflection.singularize` is an external library and enters as the parameter
`sing`.  The `while parts: ... parts.pop()` loop walks the part list from
the right, so the loop recursion runs on the reversed part list. -/

def fbt_loop (sing : String → String) (tset : List String)
    (is_index_file : Bool) : List String → String
  | [] => "page.html"
  | current_folder :: rest_rev =>
      let parent_path := rest_rev.reverse
      let singular_candidate :=
        joinSlash (parent_path ++ [sing current_folder]) ++ ".html"
      if is_index_file = false ∧ singular_candidate ∈ tset then singular_candidate
      else
        let plural_candidate := joinSlash ((current_folder :: rest_rev).reverse) ++ ".html"
        if plural_candidate ∈ tset then plural_candidate
        else fbt_loop sing tset is_index_file rest_rev

def find_best_template (sing : String → String) (tset : List String)
    (path_str : String) (is_index_file : Bool) : String :=
  let parts := pathParts path_str
  if parts = [] ∧ "index.html" ∈ tset then "index.html"
  else if is_index_file = false then
    let candidate := joinSlash parts ++ ".html"
    if candidate ∈ tset then candidate
    else fbt_loop sing tset is_index_file parts.dropLast.reverse
  else fbt_loop sing tset is_index_file parts.reverse

/-- The non-singular candidates the loop can return, on the reversed part
list: for every tail of the walk, the section/folder template
`"/".join(parts) + ".html"`. -/
def sectionCandidates : List String → List String
  | [] => []
  | c :: rest => (joinSlash ((c :: rest).reverse) ++ ".html") :: sectionCandidates rest

/-! ## The markdown loader (helpers.py lines 146–161)

`frontmatter.load`, `datetime.fromtimestamp`, `slugify` and `parse_markdown`
are external; the file record carries the already-parsed front matter and
the filesystem timestamps, `.datetime` embeds `fromtimestamp`, and `slugify`
and `parse_markdown` are parameters. -/

structure MdFile : Type where
  metadata : List (String × PyVal)
  content : String
  st_mtime : Int
  st_ctime : Int
  stem : String

structure MdDoc : Type where
  metadata : List (String × PyVal)
  content : String
  html : String

/-- Python `d[k] = v`: update the value in place when the key is present,
append the new pair otherwise. -/
def dictSet (m : List (String × PyVal)) (k : String) (v : PyVal) :
    List (String × PyVal) :=
  if k ∈ m.map Prod.fst then
    m.map (fun kv => if kv.1 = k then (kv.1, v) else kv)
  else m ++ [(k, v)]

def parse_markdown_file (slugify : String → String)
    (parse_markdown : String → String) (file : MdFile) : MdDoc :=
  let md₁ := dictSet file.metadata "date"
    (.dict [("updated", .datetime file.st_mtime), ("created", .datetime file.st_ctime)])
  let md₂ := dictSet md₁ "slug" (.str (slugify file.stem))
  { metadata := md₂, content := file.content, html := parse_markdown file.content }

/-! ## The sandboxed content renderer (helpers.py lines 177–195)

Jinja evaluation (`_safe_env.from_string(content).render(**data)`) is the
external capability `render`; `none` models a raised exception.  The result
pairs the produced string with the flag saying whether it was wrapped in
`Markup` (pre-escaped HTML). -/

def template_render_content {α : Type} (render : String → α → Option String)
    (content : String) (data : α) (safe : Bool) : String × Bool :=
  if content = "" then ("", false)
  else
    match render content data with
    | some rendered => (rendered, safe)
    | none => (content, false)

/-! ## Directory navigation (helpers.py lines 197–245)

A directory entry carries what the source observes of it: its file name,
whether it is a directory, whether a directory child owns an `index.md`, and
`str(entry.relative_to(relative_to_path))` — `none` modelling the
`ValueError` that makes the source skip the entry.  `folder_ok` models
`physical_folder.exists() and physical_folder.is_dir()`. -/

structure FsEntry : Type where
  name : String
  isDir : Bool
  hasIndexMd : Bool
  relPath : Option String
deriving DecidableEq

structure NavItem : Type where
  name : String
  url : String
  is_active : Bool
  is_dir : Bool
deriving DecidableEq

/-- Python `sorted(..., key=lambda x: (not x.is_dir(), x.name))`:
directories first, then alphabetically by name. -/
def entryKeyLe (a b : FsEntry) : Prop :=
  (!a.isDir < !b.isDir) ∨ (!a.isDir = !b.isDir ∧ a.name.toList ≤ b.name.toList)

instance : DecidableRel entryKeyLe := fun _ _ =>
  inferInstanceAs (Decidable (_ ∨ _))

def navUrl (rel : String) : String :=
  "/" ++ pyReplace (pyReplace rel ".md" "") "\\" "/"

def navName (name : String) : String :=
  pyTitle (pyReplace (pyStem name) "-" " ")

def get_directory_navigation (folder_ok : Bool) (entries : List FsEntry)
    (current_url : String) : List NavItem :=
  if folder_ok = false then []
  else
    (entries.insertionSort entryKeyLe).filterMap (fun entry =>
      if pyStartsWith entry.name "." then none
      else if entry.name = "index.md" then none
      else if entry.isDir ∧ entry.hasIndexMd = false then none
      else
        match entry.relPath with
        | none => none
        | some rel =>
            let entry_url := navUrl rel
            some { name := navName entry.name,
                   url := entry_url,
                   is_active := entry_url = current_url,
                   is_dir := entry.isDir })

/-- Modelled from the spec: the navigation URL with *only* the `.md` suffix
stripped (the reading asserted by the claim, to be compared with `navUrl`). -/
def specNavUrl (rel : String) : String :=
  let stripped := if pyEndsWith rel ".md" then ⟨rel.toList.dropLast.dropLast.dropLast⟩ else rel
  "/" ++ pyReplace stripped "\\" "/"

/-! ## Site data validation (models.py lines 33–42)

Pydantic v2 field semantics: a field annotated `Optional[T] = None` may be
absent; a field annotated `Optional[T]` *without* a default — like
`open_graph` — must be provided, though it may be provided as `None`.
Construction arguments are therefore `Option (Option τ)`: the outer layer
says whether the field was provided, the inner layer is the provided value.
`HttpUrl` validation is external to the repository and enters as the
parameter `isHttpUrl`. -/

structure OpenGraph : Type where
  og_image : String
deriving DecidableEq

structure SiteDataArgs : Type where
  name : Option (Option String) := none
  keywords : Option (Option (List String)) := none
  description : Option (Option String) := none
  author : Option (Option String) := none
  social : Option (Option (List (String × String))) := none
  open_graph : Option (Option OpenGraph) := none
deriving DecidableEq

structure SiteData : Type where
  name : Option String
  keywords : Option (List String)
  description : Option String
  author : Option String
  social : Option (List (String × String))
  open_graph : Option OpenGraph
deriving DecidableEq

def SiteData.validate (isHttpUrl : String → Bool) (args : SiteDataArgs) :
    Except String SiteData :=
  match args.open_graph with
  | none => .error "Field required: open_graph"
  | some og =>
      match args.social.getD none with
      | some pairs =>
          if pairs.all (fun kv => isHttpUrl kv.2) then
            .ok ⟨args.name.getD none, args.keywords.getD none,
                 args.description.getD none, args.author.getD none,
                 some pairs, og⟩
          else .error "social: URL input should be a valid URL"
      | none =>
          .ok ⟨args.name.getD none, args.keywords.getD none,
               args.description.getD none, args.author.getD none,
               none, og⟩

/-! # Theorems -/

/-! ## Shared lemmas about the cache layer -/

theorem mhList_eq_map (xs : List PyVal) : mhList xs = xs.map make_hashable := by
  induction xs with
  | nil => rfl
  | cons x xs ih => simp [mhList, ih]

theorem mhPairs_eq_map (kvs : List (String × PyVal)) :
    mhPairs kvs = kvs.map (fun kv => (kv.1, make_hashable kv.2)) := by
  induction kvs with
  | nil => rfl
  | cons kv kvs ih => cases kv; simp [mhPairs, ih]

theorem sorted_keyLt_of_nodup {β : Type} {l : List (String × β)}
    (hs : List.Sorted keyLe l) (hnd : (l.map Prod.fst).Nodup) :
    List.Sorted keyLt l := by
  have hne : List.Pairwise (fun p q : String × β => p.1 ≠ q.1) l :=
    List.pairwise_map.mp hnd
  refine (hs.and hne).imp ?_
  rintro ⟨k₁, v₁⟩ ⟨k₂, v₂⟩ ⟨hle, hne'⟩
  exact lt_of_le_of_ne hle (fun hc => hne' (String.ext hc))

/-- Sorting is invariant under permutation of an association list with
pairwise-distinct keys: the content of Python's canonicalization of
dictionaries. -/
theorem sortPairs_congr {β : Type} {l₁ l₂ : List (String × β)}
    (hp : l₁.Perm l₂) (hnd : (l₁.map Prod.fst).Nodup) :
    sortPairs l₁ = sortPairs l₂ := by
  have hps : (sortPairs l₁).Perm (sortPairs l₂) :=
    (List.perm_insertionSort keyLe l₁).trans
      (hp.trans (List.perm_insertionSort keyLe l₂).symm)
  have hnd₁ : ((sortPairs l₁).map Prod.fst).Nodup :=
    ((List.perm_insertionSort keyLe l₁).map Prod.fst).nodup_iff.mpr hnd
  have hnd₂ : ((sortPairs l₂).map Prod.fst).Nodup :=
    (hps.map Prod.fst).nodup_iff.mp hnd₁
  exact List.eq_of_perm_of_sorted hps
    (sorted_keyLt_of_nodup (List.sorted_insertionSort keyLe l₁) hnd₁)
    (sorted_keyLt_of_nodup (List.sorted_insertionSort keyLe l₂) hnd₂)

/-- Structurally equal values normalize to the same canonical form. -/
theorem structEq_make_hashable {a b : PyVal} (h : StructEq a b) :
    make_hashable a = make_hashable b := by
  cases h with
  | refl v => rfl
  | @dict_perm kvs₁ kvs₂ hperm hnd =>
      have hsort : sortPairs (mhPairs kvs₁) = sortPairs (mhPairs kvs₂) := by
        rw [mhPairs_eq_map, mhPairs_eq_map]
        refine sortPairs_congr (hperm.map _) ?_
        simpa [List.map_map, Function.comp_def] using hnd
      simp [make_hashable, hsort]

theorem forall2_structEq_map {l₁ l₂ : List PyVal}
    (h : List.Forall₂ StructEq l₁ l₂) :
    l₁.map make_hashable = l₂.map make_hashable := by
  induction h with
  | nil => rfl
  | cons h _ ih => simp [structEq_make_hashable h, ih]

/-- Structurally equal call arguments produce the same cache key. -/
theorem cacheKey_congr {args₁ args₂ : List PyVal}
    {kw₁ kw₂ : List (String × PyVal)}
    (hargs : List.Forall₂ StructEq args₁ args₂) (hkw : kw₁.Perm kw₂)
    (hnd : (kw₁.map Prod.fst).Nodup) :
    cacheKey args₁ kw₁ = cacheKey args₂ kw₂ := by
  unfold cacheKey hashkey
  rw [forall2_structEq_map hargs]
  have hperm : (kw₁.map (fun kv => (kv.1, make_hashable kv.2))).Perm
      (kw₂.map (fun kv => (kv.1, make_hashable kv.2))) := hkw.map _
  have hsort : sortPairs (kw₁.map (fun kv => (kv.1, make_hashable kv.2)))
      = sortPairs (kw₂.map (fun kv => (kv.1, make_hashable kv.2))) := by
    refine sortPairs_congr hperm ?_
    simpa [List.map_map, Function.comp_def] using hnd
  have hempty : (kw₁.map (fun kv => (kv.1, make_hashable kv.2))).isEmpty
      = (kw₂.map (fun kv => (kv.1, make_hashable kv.2))).isEmpty := by
    cases kw₁ with
    | nil => cases kw₂ with
      | nil => rfl
      | cons b bs => exact absurd hperm.symm.length_eq (by simp)
    | cons a as => cases kw₂ with
      | nil => exact absurd hperm.length_eq (by simp)
      | cons b bs => rfl
  rw [hsort, hempty]

/-- C2 — For every function wrapped by `cache_fn`, calling it twice with
structurally equal arguments (for example the same mapping with keys in a
different order) hits the cache on the second call and returns an identical
result without re-invoking the underlying function; after a full cache
clear the next call re-invokes the underlying function; and the original
argument objects are passed unmodified to the real call on a miss. -/
theorem cache_fn_structural_hit (f : List PyVal → List (String × PyVal) → PyVal)
    (args₁ args₂ : List PyVal) (kwargs₁ kwargs₂ : List (String × PyVal))
    (st st₁ : CacheState) (r₁ : PyVal) (b₁ : Bool)
    (hargs : List.Forall₂ StructEq args₁ args₂)
    (hkw : kwargs₁.Perm kwargs₂)
    (hknd : (kwargs₁.map Prod.fst).Nodup)
    (h₁ : callCached f args₁ kwargs₁ st = some (r₁, st₁, b₁)) :
    callCached f args₂ kwargs₂ st₁ = some (r₁, st₁, false)
    ∧ (b₁ = true → r₁ = f args₁ kwargs₁)
    ∧ callCached f args₁ kwargs₁ (clear_cache st₁)
        = some (f args₁ kwargs₁,
            ⟨[(cacheKey args₁ kwargs₁, f args₁ kwargs₁)]⟩, true) := by
  have hkey : cacheKey args₂ kwargs₂ = cacheKey args₁ kwargs₁ :=
    (cacheKey_congr hargs hkw hknd).symm
  unfold callCached at h₁ ⊢
  rw [hkey]
  by_cases hh : pyHashable (cacheKey args₁ kwargs₁) = true
  · simp only [hh, if_true] at h₁ ⊢
    cases hfind : assocFind st.entries (cacheKey args₁ kwargs₁) with
    | some v =>
        rw [hfind] at h₁
        simp only [Option.some.injEq, Prod.mk.injEq] at h₁
        obtain ⟨hv, hst, hb⟩ := h₁
        subst hst
        refine ⟨?_, ?_, ?_⟩
        · rw [hfind, hv]
        · intro hb'; rw [hb'] at hb; cases hb
        · simp [clear_cache, assocFind]
    | none =>
        rw [hfind] at h₁
        simp only [Option.some.injEq, Prod.mk.injEq] at h₁
        obtain ⟨hv, hst, hb⟩ := h₁
        subst hst
        refine ⟨?_, fun _ => hv.symm, ?_⟩
        · simp [assocFind, hv]
        · simp [clear_cache, assocFind]
  · rw [if_neg hh] at h₁
    cases h₁

/-- Witness for C2 at the mapping `{a: 1, b: 2}` versus `{b: 2, a: 1}`. -/
theorem cache_fn_structural_hit_witness :
    (callCached c2fn [.dict c2dictAB] [] ⟨[]⟩
        = some (.tuple [.dict c2dictAB], ⟨[(c2key, .tuple [.dict c2dictAB])]⟩, true))
    ∧ (callCached c2fn [.dict c2dictBA] [] ⟨[(c2key, .tuple [.dict c2dictAB])]⟩
        = some (.tuple [.dict c2dictAB], ⟨[(c2key, .tuple [.dict c2dictAB])]⟩, false))
    ∧ (callCached c2fn [.dict c2dictAB] []
          (clear_cache ⟨[(c2key, .tuple [.dict c2dictAB])]⟩)
        = some (.tuple [.dict c2dictAB], ⟨[(c2key, .tuple [.dict c2dictAB])]⟩, true)) := by
  have h₁ : callCached c2fn [.dict c2dictAB] [] ⟨[]⟩
      = some (.tuple [.dict c2dictAB], ⟨[(c2key, .tuple [.dict c2dictAB])]⟩, true) := by
    decide
  have hmain := cache_fn_structural_hit c2fn [.dict c2dictAB] [.dict c2dictBA] [] []
    ⟨[]⟩ ⟨[(c2key, .tuple [.dict c2dictAB])]⟩ (.tuple [.dict c2dictAB]) true
    (List.Forall₂.cons
      (StructEq.dict_perm (List.Perm.swap ("b", PyVal.int 2) ("a", PyVal.int 1) []) (by decide))
      List.Forall₂.nil)
    (List.Perm.refl []) (by decide) h₁
  exact ⟨h₁, hmain.1, by simpa [cacheKey] using hmain.2.2⟩

/-- C10 — The cache-key normalizer returns tuple values unchanged without
normalizing their elements, recursing only into dicts, lists and sets; so a
call through the cached interface whose argument is a tuple containing a
dict raises an unhashable-type error (modelled as `none`) instead of
returning the underlying function's result. -/
theorem make_hashable_tuple_unchanged :
    (∀ xs, make_hashable (.tuple xs) = .tuple xs)
    ∧ (∀ xs, make_hashable (.list xs) = .tuple (xs.map make_hashable))
    ∧ (∀ xs, make_hashable (.set xs) = .tuple (xs.map make_hashable))
    ∧ (∀ kvs, make_hashable (.dict kvs)
        = .tuple ((sortPairs (kvs.map (fun kv => (kv.1, make_hashable kv.2)))).map
            (fun kv => .tuple [.str kv.1, kv.2])))
    ∧ (∀ f st, callCached f [.tuple [.dict [("a", .int 1)]]] [] st = none) :=
  ⟨fun _ => rfl,
   fun xs => by simp [make_hashable, mhList_eq_map],
   fun xs => by simp [make_hashable, mhList_eq_map],
   fun kvs => by simp [make_hashable, mhPairs_eq_map],
   fun _ _ => rfl⟩

/-! ## Association-list lemmas for the metadata dictionary -/

theorem assocFind_append {α β : Type} [DecidableEq α]
    (m₁ m₂ : List (α × β)) (k : α) :
    assocFind (m₁ ++ m₂) k
      = match assocFind m₁ k with
        | some v => some v
        | none => assocFind m₂ k := by
  induction m₁ with
  | nil => rfl
  | cons kv rest ih =>
      by_cases h : kv.1 = k
      · cases kv; simp_all [assocFind]
      · cases kv; simp_all [assocFind]

theorem assocFind_map_update {β : Type} (m : List (String × β)) (k : String) (v : β) :
    assocFind (m.map (fun kv => if kv.1 = k then (kv.1, v) else kv)) k
      = if k ∈ m.map Prod.fst then some v else none := by
  induction m with
  | nil => rfl
  | cons kv rest ih =>
      obtain ⟨k₁, v₁⟩ := kv
      simp only [List.map_cons]
      by_cases h : k₁ = k
      · subst h
        rw [if_pos rfl]
        simp [assocFind]
      · rw [if_neg h]
        show (if k₁ = k then some v₁ else _) = _
        rw [if_neg h, ih]
        have hne : k ≠ k₁ := fun hc => h hc.symm
        have hcond : (k ∈ k₁ :: List.map Prod.fst rest) ↔ (k ∈ List.map Prod.fst rest) := by
          rw [List.mem_cons]
          exact or_iff_right hne
        rw [if_congr hcond rfl rfl]

theorem assocFind_map_update_ne {β : Type} (m : List (String × β)) (k k' : String)
    (v : β) (h : k ≠ k') :
    assocFind (m.map (fun kv => if kv.1 = k' then (kv.1, v) else kv)) k
      = assocFind m k := by
  induction m with
  | nil => rfl
  | cons kv rest ih =>
      obtain ⟨k₁, v₁⟩ := kv
      simp only [List.map_cons]
      by_cases hk : k₁ = k'
      · subst hk
        rw [if_pos rfl]
        have hne : ¬(k₁ = k) := fun hc => h hc.symm
        show (if k₁ = k then some v else _) = (if k₁ = k then some v₁ else _)
        rw [if_neg hne, if_neg hne, ih]
      · rw [if_neg hk]
        show (if k₁ = k then some v₁ else _) = (if k₁ = k then some v₁ else _)
        by_cases hk2 : k₁ = k
        · rw [if_pos hk2, if_pos hk2]
        · rw [if_neg hk2, if_neg hk2, ih]

theorem assocFind_eq_none {α β : Type} [DecidableEq α]
    (m : List (α × β)) (k : α) (h : k ∉ m.map Prod.fst) :
    assocFind m k = none := by
  induction m with
  | nil => rfl
  | cons kv rest ih =>
      obtain ⟨k₁, v₁⟩ := kv
      simp only [List.map_cons, List.mem_cons] at h
      push_neg at h
      have hne : ¬(k₁ = k) := fun hc => h.1 hc.symm
      simp [assocFind, hne, ih h.2]

theorem assocFind_dictSet (m : List (String × PyVal)) (k : String) (v : PyVal) :
    assocFind (dictSet m k v) k = some v := by
  unfold dictSet
  by_cases h : k ∈ m.map Prod.fst
  · rw [if_pos h, assocFind_map_update, if_pos h]
  · rw [if_neg h, assocFind_append, assocFind_eq_none m k h]
    simp [assocFind]

theorem assocFind_dictSet_ne (m : List (String × PyVal)) (k k' : String)
    (v : PyVal) (h : k ≠ k') :
    assocFind (dictSet m k' v) k = assocFind m k := by
  unfold dictSet
  by_cases hc : k' ∈ m.map Prod.fst
  · rw [if_pos hc, assocFind_map_update_ne _ _ _ _ h]
  · rw [if_neg hc, assocFind_append]
    cases hf : assocFind m k with
    | some v' => rfl
    | none => simp [assocFind, Ne.symm h]

/-- C5 — Every markdown file loaded by `parse_markdown_file` carries
system-computed metadata under `date` (with `updated` from the last-modified
timestamp and `created` from the status-change timestamp) and under `slug`
(the slugified filename stem), regardless of — and overwriting — any
author-supplied front-matter values at those keys. -/
theorem parse_markdown_file_system_metadata
    (slugify parse_markdown : String → String) (file : MdFile) :
    assocFind (parse_markdown_file slugify parse_markdown file).metadata "date"
      = some (.dict [("updated", .datetime file.st_mtime),
                     ("created", .datetime file.st_ctime)])
    ∧ assocFind (parse_markdown_file slugify parse_markdown file).metadata "slug"
      = some (.str (slugify file.stem)) := by
  unfold parse_markdown_file
  refine ⟨?_, ?_⟩
  · rw [assocFind_dictSet_ne _ _ _ _ (by decide)]
    exact assocFind_dictSet _ _ _
  · exact assocFind_dictSet _ _ _

/-- C4 — The sandboxed content renderer returns the empty string
immediately on empty input (whatever the evaluation capability does), and
when evaluation of the template expression fails it returns the original
unrendered input verbatim instead of propagating the failure. -/
theorem template_render_content_fail_open {α : Type}
    (render : String → α → Option String) (data : α) (safe : Bool) :
    template_render_content render "" data safe = ("", false)
    ∧ (∀ content, render content data = none →
        (template_render_content render content data safe).1 = content) := by
  refine ⟨rfl, ?_⟩
  intro content h
  unfold template_render_content
  by_cases hc : content = ""
  · subst hc; rfl
  · rw [if_neg hc, h]

/-- Witness for C4: a renderer that always fails leaves the input
unchanged. -/
theorem template_render_content_fail_open_witness :
    ((fun (_ : String) (_ : Unit) => (none : Option String)) "broken expr" () = none)
    ∧ (template_render_content (fun (_ : String) (_ : Unit) => (none : Option String))
        "broken expr" () true).1 = "broken expr" :=
  ⟨rfl, (template_render_content_fail_open (fun _ _ => none) () true).2 "broken expr" rfl⟩

/-- C1 — The secure path resolver fails exactly when the input contains a
null byte, when resolution fails on an illegal path, or when the resolved
path is not a descendant of (or equal to) the root; in every other case it
returns the canonical resolved absolute path. -/
theorem get_secure_target_spec (fs : FsModel) (user_path relative_to_path : String) :
    ((∃ e, get_secure_target fs user_path relative_to_path = .error e)
      ↔ ('\x00' ∈ user_path.toList
         ∨ fs.resolve (joinUnder relative_to_path (pyStrip user_path '/')) = none
         ∨ (∃ r, fs.resolve (joinUnder relative_to_path (pyStrip user_path '/')) = some r
              ∧ fs.is_relative_to r relative_to_path = false)))
    ∧ (∀ r, get_secure_target fs user_path relative_to_path = .ok r
        ↔ ('\x00' ∉ user_path.toList
           ∧ fs.resolve (joinUnder relative_to_path (pyStrip user_path '/')) = some r
           ∧ fs.is_relative_to r relative_to_path = true)) := by
  unfold get_secure_target
  by_cases h0 : '\x00' ∈ user_path.toList
  · rw [if_pos h0]
    constructor
    · simp only [Except.error.injEq, exists_eq', true_iff]
      exact Or.inl h0
    · intro r
      constructor
      · intro h
        exact Except.noConfusion h
      · rintro ⟨hn, -, -⟩
        exact absurd h0 hn
  · rw [if_neg h0]
    dsimp only
    cases hres : fs.resolve (joinUnder relative_to_path (pyStrip user_path '/')) with
    | none => simp [h0]
    | some r =>
        dsimp only
        by_cases hrel : fs.is_relative_to r relative_to_path = true
        · rw [if_pos hrel]
          constructor
          · constructor
            · rintro ⟨e, h⟩
              exact Except.noConfusion h
            · rintro (hmem | hnone | ⟨r', hsome, hr⟩)
              · exact absurd hmem h0
              · exact Option.noConfusion hnone
              · obtain rfl := Option.some.inj hsome
                rw [hrel] at hr
                exact Bool.noConfusion hr
          · intro r'
            constructor
            · intro h
              obtain rfl : r = r' := Except.ok.inj h
              exact ⟨h0, rfl, hrel⟩
            · rintro ⟨-, hsome, -⟩
              obtain rfl := Option.some.inj hsome
              rfl
        · rw [if_neg hrel]
          rw [Bool.not_eq_true] at hrel
          constructor
          · simp only [Except.error.injEq, exists_eq', true_iff]
            exact Or.inr (Or.inr ⟨r, rfl, hrel⟩)
          · intro r'
            constructor
            · intro h
              exact Except.noConfusion h
            · rintro ⟨-, hsome, hr⟩
              obtain rfl := Option.some.inj hsome
              rw [hrel] at hr
              exact Bool.noConfusion hr

/-- Witness for C1: with an identity filesystem model the resolver accepts
a benign relative path and returns the joined, resolved location. -/
theorem get_secure_target_spec_witness :
    get_secure_target ⟨fun s => some s, fun _ _ => true⟩ "posts/a" "/c" = .ok "/c/posts/a" :=
  ((get_secure_target_spec ⟨fun s => some s, fun _ _ => true⟩ "posts/a" "/c").2
    "/c/posts/a").mpr ⟨by decide, rfl, rfl⟩

/-- C7 — In the code as written, `open_graph: Optional[OpenGraph]` carries
no default, so pydantic v2 treats it as a required (though nullable) field:
constructing Site Data with every field absent is rejected with a
missing-field error, while providing `open_graph` (even as `None`) with all
other fields absent succeeds.  This contradicts the documented contract
that every field is optional. -/
theorem siteData_open_graph_required :
    SiteData.validate (fun _ => true) {} = .error "Field required: open_graph"
    ∧ SiteData.validate (fun _ => true) { open_graph := some none }
        = .ok ⟨none, none, none, none, none, none⟩
    ∧ (∀ (isHttpUrl : String → Bool) (args : SiteDataArgs), args.open_graph = none →
        SiteData.validate isHttpUrl args = .error "Field required: open_graph") := by
  refine ⟨rfl, rfl, ?_⟩
  intro isHttpUrl args h
  unfold SiteData.validate
  rw [h]

/-- Witness for C7: the all-absent argument record. -/
theorem siteData_open_graph_required_witness :
    ({} : SiteDataArgs).open_graph = none
    ∧ SiteData.validate (fun _ => false) {} = .error "Field required: open_graph" :=
  ⟨rfl, siteData_open_graph_required.2.2 (fun _ => false) {} rfl⟩

/-! ## Template-resolution lemmas -/

theorem find_best_template_posts_story (sing : String → String) (tset : List String)
    (hmem : "posts/my-story.html" ∉ tset) :
    find_best_template sing tset "posts/my-story" false
      = fbt_loop sing tset false ["posts"] := by
  show (if (["posts", "my-story"] : List String) = [] ∧ "index.html" ∈ tset then "index.html"
    else if false = false then
      if "posts/my-story.html" ∈ tset then "posts/my-story.html"
      else fbt_loop sing tset false ["posts"]
    else fbt_loop sing tset false ["my-story", "posts"]) = fbt_loop sing tset false ["posts"]
  rw [if_neg (by simp), if_pos rfl, if_neg hmem]

theorem fbt_loop_posts (sing : String → String) (tset : List String)
    (h : sing "posts" = "post") :
    fbt_loop sing tset false ["posts"]
      = if "post.html" ∈ tset then "post.html"
        else if "posts.html" ∈ tset then "posts.html"
        else "page.html" := by
  show (if false = false ∧ (sing "posts" ++ ".html") ∈ tset then sing "posts" ++ ".html"
    else if "posts.html" ∈ tset then "posts.html"
    else "page.html") = _
  rw [h]
  rw [show ("post" ++ ".html" : String) = "post.html" from rfl]
  simp only [eq_self_iff_true, true_and]

/-- C3 — Template resolution for the non-index URL path `posts/my-story`:
with `page.html`, `posts.html` and `post.html` all available it picks
`post.html` (the singular item template) in preference to `posts.html`;
with only `posts.html` among the two it picks `posts.html`; with neither it
falls back to the fixed `page.html`. -/
theorem find_best_template_fallback_order (sing : String → String)
    (h : sing "posts" = "post") :
    find_best_template sing ["page.html", "posts.html", "post.html"]
        "posts/my-story" false = "post.html"
    ∧ find_best_template sing ["page.html", "posts.html"]
        "posts/my-story" false = "posts.html"
    ∧ find_best_template sing ["page.html"]
        "posts/my-story" false = "page.html" := by
  refine ⟨?_, ?_, ?_⟩
  · rw [find_best_template_posts_story sing _ (by decide), fbt_loop_posts sing _ h,
        if_pos (by decide)]
  · rw [find_best_template_posts_story sing _ (by decide), fbt_loop_posts sing _ h,
        if_neg (by decide), if_pos (by decide)]
  · rw [find_best_template_posts_story sing _ (by decide), fbt_loop_posts sing _ h,
        if_neg (by decide), if_neg (by decide)]

/-- Witness for C3 with a concrete singularization function. -/
theorem find_best_template_fallback_order_witness :
    ((fun s => if s = "posts" then "post" else s) "posts" = "post")
    ∧ find_best_template (fun s => if s = "posts" then "post" else s)
        ["page.html", "posts.html", "post.html"] "posts/my-story" false = "post.html" :=
  ⟨by decide, (find_best_template_fallback_order _ (by decide)).1⟩

theorem fbt_loop_index_sing_irrel (sing sing' : String → String)
    (tset : List String) :
    ∀ rev, fbt_loop sing tset true rev = fbt_loop sing' tset true rev := by
  intro rev
  induction rev with
  | nil => rfl
  | cons c rest ih =>
      unfold fbt_loop
      dsimp only
      rw [if_neg (show ¬(true = false
            ∧ (joinSlash (rest.reverse ++ [sing c]) ++ ".html") ∈ tset) by simp),
          if_neg (show ¬(true = false
            ∧ (joinSlash (rest.reverse ++ [sing' c]) ++ ".html") ∈ tset) by simp)]
      by_cases hpl : (joinSlash ((c :: rest).reverse) ++ ".html") ∈ tset
      · rw [if_pos hpl, if_pos hpl]
      · rw [if_neg hpl, if_neg hpl, ih]

theorem fbt_loop_index_mem (sing : String → String) (tset : List String) :
    ∀ rev, fbt_loop sing tset true rev ∈ "page.html" :: sectionCandidates rev := by
  intro rev
  induction rev with
  | nil => exact List.mem_cons_self _ _
  | cons c rest ih =>
      unfold fbt_loop
      dsimp only
      rw [if_neg (show ¬(true = false
            ∧ (joinSlash (rest.reverse ++ [sing c]) ++ ".html") ∈ tset) by simp)]
      show _ ∈ "page.html" :: (joinSlash ((c :: rest).reverse) ++ ".html")
        :: sectionCandidates rest
      by_cases hpl : (joinSlash ((c :: rest).reverse) ++ ".html") ∈ tset
      · rw [if_pos hpl]
        exact List.mem_cons_of_mem _ (List.mem_cons_self _ _)
      · rw [if_neg hpl]
        rcases List.mem_cons.mp ih with hh | hh
        · rw [hh]; exact List.mem_cons_self _ _
        · exact List.mem_cons_of_mem _ (List.mem_cons_of_mem _ hh)

/-- C8 — With the directory-index flag set, template resolution never
returns a candidate produced by the singular "item" check: the result is
the root `index.html`, the `page.html` fallback, or one of the exact
section/folder candidates; and it does not depend on the singularization
function at all. -/
theorem find_best_template_index_no_singular (sing sing' : String → String)
    (tset : List String) (path_str : String) :
    find_best_template sing tset path_str true
      ∈ "index.html" :: "page.html" :: sectionCandidates (pathParts path_str).reverse
    ∧ find_best_template sing tset path_str true
      = find_best_template sing' tset path_str true := by
  constructor
  · unfold find_best_template
    by_cases h1 : pathParts path_str = [] ∧ "index.html" ∈ tset
    · rw [if_pos h1]
      exact List.mem_cons_self _ _
    · rw [if_neg h1, if_neg (show ¬(true = false) by simp)]
      exact List.mem_cons_of_mem _ (fbt_loop_index_mem sing tset _)
  · unfold find_best_template
    by_cases h1 : pathParts path_str = [] ∧ "index.html" ∈ tset
    · rw [if_pos h1, if_pos h1]
    · rw [if_neg h1, if_neg h1, if_neg (show ¬(true = false) by simp),
          if_neg (show ¬(true = false) by simp)]
      exact fbt_loop_index_sing_irrel sing sing' tset _

/-! ## Debounce lemmas -/

theorem runDebounce_append (st : DebounceState)
    (l₁ l₂ : List (Int × String × String)) :
    runDebounce st (l₁ ++ l₂)
      = ((runDebounce (runDebounce st l₁).1 l₂).1,
         (runDebounce st l₁).2 + (runDebounce (runDebounce st l₁).1 l₂).2) := by
  induction l₁ generalizing st with
  | nil => simp [runDebounce]
  | cons e rest ih =>
      obtain ⟨t, p, ev⟩ := e
      simp only [List.cons_append, runDebounce, List.append_eq]
      rw [ih]
      simp [Nat.add_assoc]

theorem runDebounce_all_hits (p ev : String) (exp : Int) (st : DebounceState)
    (hfind : assocFind st.entries (p, ev) = some exp) :
    ∀ ts : List Int, (∀ τ ∈ ts, τ < exp) →
      runDebounce st (ts.map (fun τ => (τ, p, ev))) = (st, 0) := by
  intro ts
  induction ts with
  | nil => intro _; rfl
  | cons τ rest ih =>
      intro hall
      have hτ : τ < exp := hall τ (List.mem_cons_self _ _)
      have hstep : clear_cache_on_file_change st τ p ev = (st, false) := by
        unfold clear_cache_on_file_change
        dsimp only
        rw [hfind]
        dsimp only
        rw [if_pos hτ]
      simp only [List.map_cons, runDebounce, hstep]
      rw [ih (fun x hx => hall x (List.mem_cons_of_mem _ hx))]
      simp

/-- C6 (amended) — Ten change notifications for the same file path *with
the same event type*, all delivered within the 5-second window opened by
the first of them, execute exactly one underlying cache clear; a
notification for that pair arriving at or after the end of that window
executes one new, separate clear. -/
theorem clear_cache_on_file_change_debounce (path ev : String) (t0 : Int)
    (ts : List Int) (t' : Int)
    (hlen : ts.length = 9)
    (hwin : ∀ τ ∈ ts, t0 ≤ τ ∧ τ < t0 + 5)
    (hafter : t0 + 5 ≤ t') :
    (runDebounce debounceInit ((t0 :: ts).map (fun τ => (τ, path, ev)))).2 = 1
    ∧ (runDebounce debounceInit (((t0 :: ts) ++ [t']).map (fun τ => (τ, path, ev)))).2
        = 2 := by
  have hten : (t0 :: ts).length = 10 := by simp [hlen]
  have hstep : clear_cache_on_file_change debounceInit t0 path ev
      = (⟨[((path, ev), t0 + 5)]⟩, true) := rfl
  have hfind : assocFind ([((path, ev), t0 + 5)] : List ((String × String) × Int))
      (path, ev) = some (t0 + 5) := by simp [assocFind]
  have hh : runDebounce ⟨[((path, ev), t0 + 5)]⟩ (ts.map fun τ => (τ, path, ev))
      = (⟨[((path, ev), t0 + 5)]⟩, 0) :=
    runDebounce_all_hits path ev (t0 + 5) _ hfind ts (fun τ hτ => (hwin τ hτ).2)
  have hfull : runDebounce debounceInit ((t0 :: ts).map (fun τ => (τ, path, ev)))
      = (⟨[((path, ev), t0 + 5)]⟩, 1) := by
    simp only [List.map_cons, runDebounce, hstep]
    rw [hh]
    simp
  refine ⟨by rw [hfull], ?_⟩
  rw [List.map_append, runDebounce_append, hfull]
  have hlast : clear_cache_on_file_change ⟨[((path, ev), t0 + 5)]⟩ t' path ev
      = (⟨[((path, ev), t' + 5)]⟩, true) := by
    unfold clear_cache_on_file_change
    dsimp only
    rw [hfind]
    dsimp only
    rw [if_neg (by omega : ¬ t' < t0 + 5)]
    simp
  simp [runDebounce, hlast]

/-- Witness for C6 (amended): ten notifications at integer times inside
`[0, 5)` followed by one at time 5. -/
theorem clear_cache_on_file_change_debounce_witness :
    (([0, 1, 1, 2, 2, 3, 3, 4, 4] : List Int).length = 9)
    ∧ (runDebounce debounceInit
        (((0 : Int) :: [0, 1, 1, 2, 2, 3, 3, 4, 4]).map
          (fun τ => (τ, "a.md", "modified")))).2 = 1
    ∧ (runDebounce debounceInit
        ((((0 : Int) :: [0, 1, 1, 2, 2, 3, 3, 4, 4]) ++ [5]).map
          (fun τ => (τ, "a.md", "modified")))).2 = 2 :=
  ⟨by decide,
   (clear_cache_on_file_change_debounce "a.md" "modified" 0
      [0, 1, 1, 2, 2, 3, 3, 4, 4] 5 (by decide) (by decide) (by decide)).1,
   (clear_cache_on_file_change_debounce "a.md" "modified" 0
      [0, 1, 1, 2, 2, 3, 3, 4, 4] 5 (by decide) (by decide) (by decide)).2⟩

/-- C6 counterexample — Ten change notifications for the same file path
within a 5-second window, but with two different event types, execute two
underlying cache clears, not one: the debounce cache is keyed on the
`(path, event_type)` pair, not on the path alone. -/
theorem clear_cache_on_file_change_same_path_two_clears :
    (runDebounce debounceInit
      [((0 : Int), "a.md", "created"), (0, "a.md", "modified"),
       (1, "a.md", "created"), (1, "a.md", "modified"),
       (2, "a.md", "created"), (2, "a.md", "modified"),
       (3, "a.md", "created"), (3, "a.md", "modified"),
       (4, "a.md", "created"), (4, "a.md", "modified")]).2 = 2
    ∧ (2 : Nat) ≠ 1 := by
  refine ⟨by decide, by decide⟩

/-! ## Navigation lemmas -/

/-- C9 (amended) — Every navigation item generated for a surviving
directory entry has as URL the entry's path relative to the content root
with *every occurrence* of the substring `.md` removed (the source uses
`str.replace`, which is not limited to the suffix), backslashes normalized
to forward slashes and a leading slash added; the display name is the
filename stem with hyphens replaced by spaces, title-cased. -/
theorem get_directory_navigation_entries (folder_ok : Bool)
    (entries : List FsEntry) (current_url : String) (item : NavItem)
    (hmem : item ∈ get_directory_navigation folder_ok entries current_url) :
    ∃ entry ∈ entries, ∃ rel, entry.relPath = some rel
      ∧ pyStartsWith entry.name "." = false
      ∧ entry.name ≠ "index.md"
      ∧ (entry.isDir = true → entry.hasIndexMd = true)
      ∧ item.url = "/" ++ pyReplace (pyReplace rel ".md" "") "\\" "/"
      ∧ item.name = pyTitle (pyReplace (pyStem entry.name) "-" " ")
      ∧ item.is_dir = entry.isDir
      ∧ item.is_active = decide (item.url = current_url) := by
  unfold get_directory_navigation at hmem
  by_cases hok : folder_ok = false
  · rw [if_pos hok] at hmem
    cases hmem
  · rw [if_neg hok] at hmem
    obtain ⟨entry, hentry, hfn⟩ := List.mem_filterMap.mp hmem
    have hentry' : entry ∈ entries := (List.mem_insertionSort entryKeyLe).mp hentry
    refine ⟨entry, hentry', ?_⟩
    by_cases h1 : pyStartsWith entry.name "." = true
    · rw [if_pos h1] at hfn
      cases hfn
    · rw [if_neg h1] at hfn
      by_cases h2 : entry.name = "index.md"
      · rw [if_pos h2] at hfn
        cases hfn
      · rw [if_neg h2] at hfn
        by_cases h3 : entry.isDir = true ∧ entry.hasIndexMd = false
        · rw [if_pos h3] at hfn
          cases hfn
        · rw [if_neg h3] at hfn
          cases hrel : entry.relPath with
          | none => rw [hrel] at hfn; cases hfn
          | some rel =>
              rw [hrel] at hfn
              dsimp only at hfn
              obtain rfl := Option.some.inj hfn
              refine ⟨rel, rfl, Bool.not_eq_true _ ▸ h1, h2, ?_, rfl, rfl, rfl, rfl⟩
              intro hdir
              by_cases hidx : entry.hasIndexMd = true
              · exact hidx
              · exact absurd ⟨hdir, Bool.not_eq_true _ ▸ hidx⟩ h3

/-- Witness for C9 (amended): a single ordinary file entry. -/
theorem get_directory_navigation_entries_witness :
    ((⟨"My Story", "/my-story", false, false⟩ : NavItem)
        ∈ get_directory_navigation true
            [⟨"my-story.md", false, false, some "my-story.md"⟩] "/x")
    ∧ (∃ entry ∈ ([⟨"my-story.md", false, false, some "my-story.md"⟩] : List FsEntry),
        ∃ rel, entry.relPath = some rel
          ∧ pyStartsWith entry.name "." = false
          ∧ entry.name ≠ "index.md"
          ∧ (entry.isDir = true → entry.hasIndexMd = true)
          ∧ (⟨"My Story", "/my-story", false, false⟩ : NavItem).url
              = "/" ++ pyReplace (pyReplace rel ".md" "") "\\" "/"
          ∧ (⟨"My Story", "/my-story", false, false⟩ : NavItem).name
              = pyTitle (pyReplace (pyStem entry.name) "-" " ")
          ∧ (⟨"My Story", "/my-story", false, false⟩ : NavItem).is_dir = entry.isDir
          ∧ (⟨"My Story", "/my-story", false, false⟩ : NavItem).is_active
              = decide ((⟨"My Story", "/my-story", false, false⟩ : NavItem).url = "/x")) :=
  ⟨by decide,
   get_directory_navigation_entries true
     [⟨"my-story.md", false, false, some "my-story.md"⟩] "/x"
     ⟨"My Story", "/my-story", false, false⟩ (by decide)⟩

/-- C9 counterexample — For the entry `my.md-notes.md` (relative path
`my.md-notes.md`) the generated URL is `/my-notes`: the inner occurrence of
`.md` is removed as well, so the URL is not the relative path with only the
`.md` suffix stripped, which would be `/my.md-notes`. -/
theorem get_directory_navigation_url_counterexample :
    (get_directory_navigation true
        [⟨"my.md-notes.md", false, false, some "my.md-notes.md"⟩] "/x").map NavItem.url
      = ["/my-notes"]
    ∧ specNavUrl "my.md-notes.md" = "/my.md-notes"
    ∧ ("/my-notes" : String) ≠ "/my.md-notes" := by
  refine ⟨by decide, by decide, by decide⟩

end MooseyCMS
